import Mathlib

/-!
Shallow embedding of the pomo-oxide timer engine (src/main.rs).

The engine state (struct AppModel), its configuration (struct Config), the
phase enum (State) and the command enum (AppMsg) are translated directly
from the source.  Durations are modelled in whole milliseconds as Nat.
The audio collaborator is a pair of oracles: loadSong models
Song::from_file as used by try_song, and playOk tells whether
Player::play_song_now succeeds on a given song; the source unwraps that
result, so a failed play is a panic, modelled as Except.error.  Likewise
the u8 remainder by a zero rest_count in next_state is a panic.
Configuration persistence (serde + fs::write) is best-effort and logged
in the source; it never touches engine state, so it is omitted.
-/

deriving instance DecidableEq for Except

/-- A file-system path, kept abstract. -/
abbrev PathBuf := String

/-- A loaded audio asset, kept abstract. -/
abbrev Song := String

/-- const SLEEP_STEP: Duration = Duration::from_millis(250). -/
def SLEEP_STEP : Nat := 250

/-- struct Config (durations in milliseconds). -/
structure Config where
  pomodoro_time : Nat
  break_time : Nat
  rest_time : Nat
  rest_count : Nat
  sound_path : PathBuf
deriving DecidableEq

/-- impl Default for Config: 25 min pomodoro, 5 min break, 20 min rest,
rest_count 4, default sound asset. -/
def Config.default : Config :=
  { pomodoro_time := 25 * 60 * 1000
    break_time := 5 * 60 * 1000
    rest_time := 20 * 60 * 1000
    rest_count := 4
    sound_path := "default.ogg" }

/-- enum State. -/
inductive State where
  | Pomodoro
  | Break
  | Rest
deriving DecidableEq

/-- State::duration. -/
def State.duration : State → Config → Nat
  | State.Pomodoro, c => c.pomodoro_time
  | State.Break, c => c.break_time
  | State.Rest, c => c.rest_time

/-- struct AppModel: the engine fields.  The audio player handle, the
config file path and the step-permission handle are modelled separately
(the permission in the scheduler transition system further below). -/
structure AppModel where
  running : Bool
  timer : Nat
  song : Option Song
  state : State
  rest_counter : Nat
  pomodoro_count : Nat
  config : Config
deriving DecidableEq

/-- enum AppMsg; ChangeConfig carries the config-mutating closure. -/
inductive AppMsg where
  | Ignore
  | Step
  | Toggle (t : Option Bool)
  | Skip
  | Renew
  | Restart
  | ChangeConfig (f : Config → Config)

/-- AppModel::new (song = try_song(config.sound_path), timer = duration of
the default state, which is Pomodoro). -/
def AppModel.new (loadSong : PathBuf → Option Song) (config : Config) : AppModel :=
  { running := false
    timer := State.Pomodoro.duration config
    song := loadSong config.sound_path
    state := State.Pomodoro
    rest_counter := 0
    pomodoro_count := 0
    config := config }

/-- AppModel::state_duration. -/
def AppModel.state_duration (m : AppModel) : Nat :=
  m.state.duration m.config

/-- AppModel::restart_state (the log line is a side effect without state). -/
def AppModel.restart_state (m : AppModel) : AppModel :=
  { m with timer := m.state_duration }

/-- AppModel::restart. -/
def AppModel.restart (m : AppModel) : AppModel :=
  AppModel.restart_state { m with state := State.Pomodoro, rest_counter := 0 }

/-- AppModel::toggle. -/
def AppModel.toggle (m : AppModel) (running : Option Bool) : AppModel :=
  { m with running := running.getD (!m.running) }

/-- The play-and-unwrap idiom of the source: if a song is loaded, play it
now and unwrap the result, so a failed play is a panic.  Returns the list
of songs played. -/
def playCurrent (playOk : Song → Bool) (m : AppModel) : Except Unit (List Song) :=
  match m.song with
  | some s => if playOk s then Except.ok [s] else Except.error ()
  | none => Except.ok []

/-- The phase-transition match inside AppModel::next_state.  The Pomodoro
arm increments pomodoro_count only when the timer is at zero.  The
Break and Rest arms take the u8 remainder by rest_count, which panics when
rest_count is zero. -/
def nextPhase (m : AppModel) : Except Unit AppModel :=
  match m.state with
  | State.Pomodoro =>
    let m2 := if m.timer = 0 then { m with pomodoro_count := m.pomodoro_count + 1 } else m
    if m2.rest_counter + 1 ≥ m2.config.rest_count then
      Except.ok { m2 with state := State.Rest }
    else
      Except.ok { m2 with state := State.Break }
  | State.Break | State.Rest =>
    if m.config.rest_count = 0 then Except.error ()
    else
      Except.ok { m with rest_counter := (m.rest_counter + 1) % m.config.rest_count,
                         state := State.Pomodoro }

/-- AppModel::next_state: advance the phase, play the sound when the timer
is at zero, then restart_state. -/
def AppModel.next_state (playOk : Song → Bool) (m : AppModel) :
    Except Unit (AppModel × List Song) :=
  (nextPhase m).bind fun m1 =>
    (if m1.timer = 0 then playCurrent playOk m1 else Except.ok []).map fun played =>
      (m1.restart_state, played)

/-- AppModel::try_next_state. -/
def AppModel.try_next_state (playOk : Song → Bool) (m : AppModel) :
    Except Unit (AppModel × List Song) :=
  if m.timer = 0 then m.next_state playOk else Except.ok (m, [])

/-- AppModel::change_config: remember the previous sound path, apply the
mutator, reload the song when the path changed (rolling the path back when
the load fails) and play the currently loaded song; then restart when the
new rest_count invalidates the counter, renew otherwise.  Saving the
config to disk is external, best-effort and logged; it is omitted. -/
def AppModel.change_config (loadSong : PathBuf → Option Song) (playOk : Song → Bool)
    (config_changer : Config → Config) (m : AppModel) :
    Except Unit (AppModel × List Song) :=
  let previous_sound_path := m.config.sound_path
  let m1 : AppModel := { m with config := config_changer m.config }
  (if previous_sound_path ≠ m1.config.sound_path then
      let m2 : AppModel :=
        match loadSong m1.config.sound_path with
        | some new_song => { m1 with song := some new_song }
        | none => { m1 with config := { m1.config with sound_path := previous_sound_path } }
      (playCurrent playOk m2).map fun played => (m2, played)
    else Except.ok (m1, [])).bind fun mp =>
    if mp.1.config.rest_count ≤ mp.1.rest_counter then
      Except.ok (mp.1.restart, mp.2)
    else
      Except.ok (mp.1.restart_state, mp.2)

/-- The tail of AppModel::update: when running, subtract
min(SLEEP_STEP, timer) from the timer and request one tick with exactly
that delay (the third component is the delay of the requested tick). -/
def AppModel.schedule (m : AppModel) (played : List Song) :
    AppModel × List Song × Option Nat :=
  if m.running then
    ({ m with timer := m.timer - min SLEEP_STEP m.timer }, played,
      some (min SLEEP_STEP m.timer))
  else
    (m, played, none)

/-- AppModel::update as a state transformer: dispatch the message, then,
unless the message was Ignore (which returns early), run the scheduling
tail.  The clearing of the step permission is modelled in the scheduler
transition system below. -/
def AppModel.update (loadSong : PathBuf → Option Song) (playOk : Song → Bool)
    (msg : AppMsg) (m : AppModel) : Except Unit (AppModel × List Song × Option Nat) :=
  match msg with
  | AppMsg.Ignore => Except.ok (m, [], none)
  | AppMsg.Step => (m.try_next_state playOk).map fun mp => mp.1.schedule mp.2
  | AppMsg.Toggle t => Except.ok ((m.toggle t).schedule [])
  | AppMsg.Skip => (m.next_state playOk).map fun mp => mp.1.schedule mp.2
  | AppMsg.Renew => Except.ok (m.restart_state.schedule [])
  | AppMsg.Restart => Except.ok (m.restart.schedule [])
  | AppMsg.ChangeConfig f => (m.change_config loadSong playOk f).map fun mp => mp.1.schedule mp.2

/-- The Rust format specifier with zero padding to width two,
for arguments below 100. -/
def pad2 (n : Nat) : String :=
  if n < 10 then "0" ++ toString n else toString n

/-- min_format: seconds are the milliseconds divided by 1000, rounded up
by adding one when there is a remainder; rendered minutes, colon, seconds
zero-padded to two digits. -/
def min_format (dur : Nat) : String :=
  let millis := dur
  let secs := millis / 1000 + if millis % 1000 ≠ 0 then 1 else 0
  toString (secs / 60) ++ ":" ++ pad2 (secs % 60)

/-- Rendering described by the spec sentence: total seconds are the
ceiling of the milliseconds divided by 1000, then minutes, a colon, and
the seconds zero-padded to two digits. -/
def min_format_spec (dur : Nat) : String :=
  let secs := (dur + 999) / 1000
  toString (secs / 60) ++ ":" ++ pad2 (secs % 60)

/-- One natural expiry: the countdown has reached zero (timer = 0), the
tick fires and next_state runs; natRun iterates this, with a player that
always succeeds. -/
def natRun (m : AppModel) : Nat → Except Unit AppModel
  | 0 => Except.ok m
  | n + 1 =>
    (natRun m n).bind fun m1 =>
      (AppModel.next_state (fun _ => true) { m1 with timer := 0 }).map Prod.fst

/-- The even-step snapshot of the natural cycle: about to start pomodoro
number j + 1, with j full pomodoro-and-break cycles behind it. -/
def cycleModel (c : Config) (so : Option Song) (j : Nat) : AppModel :=
  { running := false, timer := c.pomodoro_time, song := so, state := State.Pomodoro,
    rest_counter := j, pomodoro_count := j, config := c }

/-- A concrete engine state and sound-changing mutator used by the
witnesses below. -/
def mSound : AppModel := AppModel.mk false 5 (some "old") State.Break 1 3 Config.default

/-- A mutator that only changes the sound path. -/
def fSound : Config → Config := fun c => { c with sound_path := "new.ogg" }

/-- Invariant claimed for the countdown: remaining never exceeds the
configured duration of the current phase (and, the timer being a Nat, is
never negative). -/
def TimerInv (m : AppModel) : Prop :=
  m.timer ≤ m.state.duration m.config

/-- The engine together with the tick-permission machinery: one Bool flag
per tick ever spawned (fresh indices come from nextId), and the handle the
engine currently holds, mirroring the step_permission field. -/
structure SchedState where
  model : AppModel
  flags : Nat → Bool
  nextId : Nat
  current : Option Nat

/-- AppModel::clear_step_permission: take the held handle, store false
into its flag and drop it. -/
def SchedState.clear_step_permission (s : SchedState) : SchedState :=
  { s with flags := fun j => if s.current = some j then false else s.flags j,
           current := none }

/-- One command processed by AppModel::update, permission part included:
the handler first clears the previous step permission, runs, and, when it
requested a tick, creates a fresh true flag for the spawned sleeper and
holds it as the current permission (the second clear in the source is a
no-op, the permission being already cleared).  A handler panic gives
none. -/
def procCmd (loadSong : PathBuf → Option Song) (msg : AppMsg) (s : SchedState) :
    Option SchedState :=
  let s1 := s.clear_step_permission
  match AppModel.update loadSong (fun _ => true) msg s.model with
  | Except.error _ => none
  | Except.ok (m, _, some _) =>
    some { s1 with model := m,
                   flags := fun j => if j = s1.nextId then true else s1.flags j,
                   nextId := s1.nextId + 1,
                   current := some s1.nextId }
  | Except.ok (m, _, none) => some { s1 with model := m }

/-- An event of the concurrent system: a user command arrives, or the
sleeper of tick id wakes up. -/
inductive SchedEvent where
  | command (msg : AppMsg)
  | fire (id : Nat)

/-- Event semantics: at fire time the sleeper loads its flag and submits
Step only when it still holds the permission; otherwise it silently
drops the notification. -/
def procEvent (loadSong : PathBuf → Option Song) (e : SchedEvent) (s : SchedState) :
    Option SchedState :=
  match e with
  | SchedEvent.command msg => procCmd loadSong msg s
  | SchedEvent.fire id => if s.flags id then procCmd loadSong AppMsg.Step s else some s

/-- The engine as created at startup: no flags, no held permission. -/
def initSched (loadSong : PathBuf → Option Song) (c : Config) : SchedState :=
  { model := AppModel.new loadSong c, flags := fun _ => false, nextId := 0, current := none }

/-- States reachable from startup through panic-free event processing. -/
inductive SchedReach (loadSong : PathBuf → Option Song) : SchedState → Prop
  | init (c : Config) : SchedReach loadSong (initSched loadSong c)
  | step (s s' : SchedState) (e : SchedEvent) : SchedReach loadSong s →
      procEvent loadSong e s = some s' → SchedReach loadSong s'

/-- The pending-tick permission invariant: every true flag is the one the
engine currently holds, the held flag is true with an already-spawned
index, and indices not yet spawned are false. -/
def PermInv (s : SchedState) : Prop :=
  (∀ j, s.flags j = true → s.current = some j)
  ∧ (∀ i, s.current = some i → s.flags i = true ∧ i < s.nextId)
  ∧ (∀ j, s.nextId ≤ j → s.flags j = false)

/-- Claim C10: for every duration, the minutes-and-seconds rendering
computes total seconds as the ceiling of the milliseconds divided by 1000
(any nonzero sub-second remainder rounds up) and formats minutes, a
colon, and the seconds zero-padded to two digits. -/
theorem c10_min_format_ceiling (dur : Nat) : min_format dur = min_format_spec dur := by
  have h : dur / 1000 + (if dur % 1000 ≠ 0 then 1 else 0) = (dur + 999) / 1000 := by
    by_cases h0 : dur % 1000 = 0 <;> simp [h0] <;> omega
  simp only [min_format, min_format_spec, h]

lemma natStep_pomodoro_to_break (c : Config) (so : Option Song) (j : Nat)
    (hj : j + 1 < c.rest_count) :
    (AppModel.next_state (fun _ => true) { cycleModel c so j with timer := 0 }).map Prod.fst =
      Except.ok { running := false, timer := c.break_time, song := so, state := State.Break,
                  rest_counter := j, pomodoro_count := j + 1, config := c } := by
  have h : ¬(j + 1 ≥ c.rest_count) := by omega
  cases so <;>
    simp [AppModel.next_state, nextPhase, playCurrent, cycleModel, AppModel.restart_state,
      AppModel.state_duration, State.duration, Except.bind, Except.map, h]

lemma natStep_break_to_pomodoro (c : Config) (so : Option Song) (j : Nat)
    (hj : j + 1 < c.rest_count) :
    (AppModel.next_state (fun _ => true)
        { running := false, timer := 0, song := so, state := State.Break,
          rest_counter := j, pomodoro_count := j + 1, config := c }).map Prod.fst =
      Except.ok (cycleModel c so (j + 1)) := by
  have h0 : ¬(c.rest_count = 0) := by omega
  have hm : (j + 1) % c.rest_count = j + 1 := Nat.mod_eq_of_lt hj
  cases so <;>
    simp [AppModel.next_state, nextPhase, playCurrent, cycleModel, AppModel.restart_state,
      AppModel.state_duration, State.duration, Except.bind, Except.map, h0, hm]

lemma natStep_pomodoro_to_rest (c : Config) (so : Option Song) (j : Nat)
    (hj : c.rest_count ≤ j + 1) :
    (AppModel.next_state (fun _ => true) { cycleModel c so j with timer := 0 }).map Prod.fst =
      Except.ok { running := false, timer := c.rest_time, song := so, state := State.Rest,
                  rest_counter := j, pomodoro_count := j + 1, config := c } := by
  cases so <;>
    simp [AppModel.next_state, nextPhase, playCurrent, cycleModel, AppModel.restart_state,
      AppModel.state_duration, State.duration, Except.bind, Except.map, hj]

lemma natStep_rest_to_pomodoro (c : Config) (so : Option Song) (N cnt : Nat)
    (hc : c.rest_count = N + 1) :
    (AppModel.next_state (fun _ => true)
        { running := false, timer := 0, song := so, state := State.Rest,
          rest_counter := N, pomodoro_count := cnt, config := c }).map Prod.fst =
      Except.ok { running := false, timer := c.pomodoro_time, song := so,
                  state := State.Pomodoro, rest_counter := 0, pomodoro_count := cnt,
                  config := c } := by
  have h0 : ¬(c.rest_count = 0) := by omega
  have hm : (N + 1) % c.rest_count = 0 := by rw [hc]; exact Nat.mod_self (N + 1)
  cases so <;>
    simp [AppModel.next_state, nextPhase, playCurrent, cycleModel, AppModel.restart_state,
      AppModel.state_duration, State.duration, Except.bind, Except.map, h0, hm]

lemma natRun_cycle (c : Config) (so : Option Song) :
    ∀ j, j < c.rest_count → natRun (cycleModel c so 0) (2 * j) = Except.ok (cycleModel c so j) := by
  intro j
  induction j with
  | zero => intro _; rfl
  | succ j ih =>
    intro hj
    have hj' : j < c.rest_count := by omega
    have e2 : 2 * (j + 1) = 2 * j + 1 + 1 := by omega
    rw [e2]
    rw [natRun, natRun, ih hj']
    simp only [Except.bind]
    rw [natStep_pomodoro_to_break c so j hj]
    simp only [Except.bind]
    exact natStep_break_to_pomodoro c so j hj


/-- Claim C1, counterexample: with rest_count = 2, after two natural
Pomodoro expirations (the first Break completed in between) the engine is
in the Rest phase but rest_counter is 1, not 0: the counter is not reset
when the Rest phase is entered. -/
theorem c1_counterexample :
    (natRun (AppModel.mk false 100 none State.Pomodoro 0 0 (Config.mk 100 50 80 2 "s")) 3).map
        (fun m => (m.state, m.rest_counter)) = Except.ok (State.Rest, 1) := by
  rfl

/-- Claim C1 (amended): for every configuration with rest_count = N + 1,
starting from rest_counter = 0, the (N + 1)-th natural Pomodoro expiration
(each previous one followed by the completion of its Break) routes to Rest
rather than Break; upon entering that Rest phase rest_counter equals N
(that is, rest_count - 1), and rest_counter becomes 0 when that Rest phase
completes, or when Restart is invoked. -/
theorem c1_amended (N pt bt rt : Nat) (sp : PathBuf) (so : Option Song) :
    natRun (AppModel.mk false pt so State.Pomodoro 0 0 (Config.mk pt bt rt (N + 1) sp))
        (2 * (N + 1) - 1) =
      Except.ok (AppModel.mk false rt so State.Rest N (N + 1) (Config.mk pt bt rt (N + 1) sp))
    ∧ natRun (AppModel.mk false pt so State.Pomodoro 0 0 (Config.mk pt bt rt (N + 1) sp))
        (2 * (N + 1)) =
      Except.ok (AppModel.mk false pt so State.Pomodoro 0 (N + 1)
        (Config.mk pt bt rt (N + 1) sp))
    ∧ ∀ m : AppModel, (AppModel.restart m).rest_counter = 0 := by
  have hcyc := natRun_cycle (Config.mk pt bt rt (N + 1) sp) so N (Nat.lt_succ_self N)
  have hrest : natRun (AppModel.mk false pt so State.Pomodoro 0 0
      (Config.mk pt bt rt (N + 1) sp)) (2 * N + 1) =
      Except.ok (AppModel.mk false rt so State.Rest N (N + 1)
        (Config.mk pt bt rt (N + 1) sp)) := by
    rw [natRun]
    show (natRun (cycleModel (Config.mk pt bt rt (N + 1) sp) so 0) (2 * N)).bind _ = _
    rw [hcyc]
    simp only [Except.bind]
    exact natStep_pomodoro_to_rest (Config.mk pt bt rt (N + 1) sp) so N (Nat.le_refl (N + 1))
  have e1 : 2 * (N + 1) - 1 = 2 * N + 1 := by omega
  have e2 : 2 * (N + 1) = 2 * N + 1 + 1 := by omega
  refine ⟨by rw [e1]; exact hrest, ?_, fun m => rfl⟩
  rw [e2, natRun, hrest]
  simp only [Except.bind]
  exact natStep_rest_to_pomodoro (Config.mk pt bt rt (N + 1) sp) so N (N + 1) rfl

lemma next_state_ok_pomodoro (m : AppModel) (h : m.state = State.Pomodoro) :
    AppModel.next_state (fun _ => true) m =
      Except.ok
        ({ m with
            state := if m.rest_counter + 1 ≥ m.config.rest_count then State.Rest
              else State.Break,
            pomodoro_count := if m.timer = 0 then m.pomodoro_count + 1 else m.pomodoro_count,
            timer := State.duration
              (if m.rest_counter + 1 ≥ m.config.rest_count then State.Rest else State.Break)
              m.config },
          if m.timer = 0 then m.song.toList else []) := by
  obtain ⟨run, tmr, so, st, rc, pc, cfg⟩ := m
  change st = State.Pomodoro at h
  subst h
  by_cases ht : tmr = 0 <;> by_cases hr : rc + 1 ≥ cfg.rest_count <;> cases so <;>
    simp [AppModel.next_state, nextPhase, playCurrent, AppModel.restart_state,
      AppModel.state_duration, Except.bind, Except.map, ht, hr]

lemma next_state_ok_other (m : AppModel)
    (h : m.state = State.Break ∨ m.state = State.Rest) (h0 : m.config.rest_count ≠ 0) :
    AppModel.next_state (fun _ => true) m =
      Except.ok
        ({ m with
            state := State.Pomodoro,
            rest_counter := (m.rest_counter + 1) % m.config.rest_count,
            timer := m.config.pomodoro_time },
          if m.timer = 0 then m.song.toList else []) := by
  obtain ⟨run, tmr, so, st, rc, pc, cfg⟩ := m
  by_cases ht : tmr = 0 <;> cases so <;>
    rcases h with h | h <;> change st = _ at h <;> subst h <;>
    simp [AppModel.next_state, nextPhase, playCurrent, AppModel.restart_state,
      AppModel.state_duration, State.duration, Except.bind, Except.map, ht, h0]

/-- Claim C2, counterexample: in the Pomodoro phase with remaining = 0
(a countdown that has run out while paused, or a tick not yet delivered),
invoking Skip increments pomodoro_count from 0 to 1: the code decides by
the timer value, not by how the transition was requested. -/
theorem c2_counterexample :
    (AppModel.update (fun _ => none) (fun _ => true) AppMsg.Skip
        (AppModel.mk false 0 none State.Pomodoro 0 0 Config.default)).map
        (fun r => r.1.pomodoro_count) = Except.ok 1 := by
  rfl

/-- Claim C2 (amended): invoking Skip in the Pomodoro phase leaves
pomodoro_count unchanged whenever remaining is nonzero; when remaining is
already zero, Skip is indistinguishable from a natural expiry and
increments pomodoro_count by one. -/
theorem c2_amended (m : AppModel) (lo : PathBuf → Option Song)
    (h : m.state = State.Pomodoro) :
    (m.timer ≠ 0 →
      (AppModel.update lo (fun _ => true) AppMsg.Skip m).map (fun r => r.1.pomodoro_count) =
        Except.ok m.pomodoro_count)
    ∧ (m.timer = 0 →
      (AppModel.update lo (fun _ => true) AppMsg.Skip m).map (fun r => r.1.pomodoro_count) =
        Except.ok (m.pomodoro_count + 1)) := by
  constructor <;> intro ht <;>
    simp [AppModel.update, next_state_ok_pomodoro m h, AppModel.schedule, Except.map, ht] <;>
    split <;> simp

/-- Witness for c2_amended at a concrete paused mid-pomodoro state. -/
theorem c2_amended_witness :
    ((AppModel.mk false 900 none State.Pomodoro 0 0 Config.default).timer ≠ 0 →
      (AppModel.update (fun _ => none) (fun _ => true) AppMsg.Skip
          (AppModel.mk false 900 none State.Pomodoro 0 0 Config.default)).map
          (fun r => r.1.pomodoro_count) =
        Except.ok (AppModel.mk false 900 none State.Pomodoro 0 0 Config.default).pomodoro_count)
    ∧ ((AppModel.mk false 900 none State.Pomodoro 0 0 Config.default).timer = 0 →
      (AppModel.update (fun _ => none) (fun _ => true) AppMsg.Skip
          (AppModel.mk false 900 none State.Pomodoro 0 0 Config.default)).map
          (fun r => r.1.pomodoro_count) =
        Except.ok ((AppModel.mk false 900 none State.Pomodoro 0 0 Config.default).pomodoro_count + 1)) :=
  c2_amended (AppModel.mk false 900 none State.Pomodoro 0 0 Config.default)
    (fun _ => none) rfl

lemma schedule_exists (m : AppModel) (p : List Song) :
    ∃ m2 sched, m.schedule p = (m2, p, sched) := by
  unfold AppModel.schedule
  split <;> exact ⟨_, _, rfl⟩

lemma next_state_played (m : AppModel) (h0 : m.config.rest_count ≠ 0) :
    ∃ m1, AppModel.next_state (fun _ => true) m =
      Except.ok (m1, if m.timer = 0 then m.song.toList else []) := by
  cases hst : m.state
  · exact ⟨_, next_state_ok_pomodoro m hst⟩
  · exact ⟨_, next_state_ok_other m (Or.inl hst) h0⟩
  · exact ⟨_, next_state_ok_other m (Or.inr hst) h0⟩

/-- Claim C3, counterexample: a Skip issued while the Pomodoro countdown
stands at zero plays the loaded song: a skip-driven transition does
trigger audio when remaining is zero. -/
theorem c3_counterexample :
    (AppModel.update (fun _ => none) (fun _ => true) AppMsg.Skip
        (AppModel.mk false 0 (some "beep") State.Pomodoro 0 0 Config.default)).map
        (fun r => r.2.1) = Except.ok ["beep"] := by
  rfl

/-- Claim C3 (amended): on both a Step-driven and a Skip-driven
transition, the notification sound is played exactly once if and only if
remaining is zero at the moment of the transition and a song is loaded;
in particular a natural expiry with a loaded song plays it exactly once,
a Skip with nonzero remaining never plays audio, but a Skip with
remaining zero does. -/
theorem c3_amended (m : AppModel) (lo : PathBuf → Option Song)
    (h0 : 1 ≤ m.config.rest_count) :
    (∃ m1 sched, AppModel.update lo (fun _ => true) AppMsg.Step m =
        Except.ok (m1, (if m.timer = 0 then m.song.toList else []), sched))
    ∧ (∃ m2 sched, AppModel.update lo (fun _ => true) AppMsg.Skip m =
        Except.ok (m2, (if m.timer = 0 then m.song.toList else []), sched)) := by
  have h0' : m.config.rest_count ≠ 0 := by omega
  obtain ⟨m1, h1⟩ := next_state_played m h0'
  constructor
  · by_cases ht : m.timer = 0
    · obtain ⟨m2, sch, hs⟩ := schedule_exists m1 m.song.toList
      refine ⟨m2, sch, ?_⟩
      simp only [AppModel.update, AppModel.try_next_state, if_pos ht, h1, Except.map, ht,
        if_true, hs]
    · obtain ⟨m2, sch, hs⟩ := schedule_exists m []
      refine ⟨m2, sch, ?_⟩
      simp [AppModel.update, AppModel.try_next_state, ht, Except.map, hs]
  · obtain ⟨m2, sch, hs⟩ := schedule_exists m1 (if m.timer = 0 then m.song.toList else [])
    refine ⟨m2, sch, ?_⟩
    simp [AppModel.update, h1, Except.map, hs]

/-- Witness for c3_amended at a concrete state with a loaded song and a
countdown standing at zero. -/
theorem c3_amended_witness :
    (∃ m1 sched, AppModel.update (fun _ => none) (fun _ => true) AppMsg.Step
        (AppModel.mk false 0 (some "beep") State.Pomodoro 0 0 Config.default) =
        Except.ok (m1,
          (if (AppModel.mk false 0 (some "beep") State.Pomodoro 0 0 Config.default).timer = 0
            then (AppModel.mk false 0 (some "beep") State.Pomodoro 0 0 Config.default).song.toList
            else []), sched))
    ∧ (∃ m2 sched, AppModel.update (fun _ => none) (fun _ => true) AppMsg.Skip
        (AppModel.mk false 0 (some "beep") State.Pomodoro 0 0 Config.default) =
        Except.ok (m2,
          (if (AppModel.mk false 0 (some "beep") State.Pomodoro 0 0 Config.default).timer = 0
            then (AppModel.mk false 0 (some "beep") State.Pomodoro 0 0 Config.default).song.toList
            else []), sched)) :=
  c3_amended (AppModel.mk false 0 (some "beep") State.Pomodoro 0 0 Config.default)
    (fun _ => none) (by decide)

lemma playCurrent_true (m : AppModel) : playCurrent (fun _ => true) m = Except.ok m.song.toList := by
  cases h : m.song <;> simp [playCurrent, h]

lemma change_config_ok (lo : PathBuf → Option Song) (f : Config → Config) (m : AppModel) :
    ∃ mp, AppModel.change_config lo (fun _ => true) f m = Except.ok mp := by
  by_cases hch : m.config.sound_path ≠ (f m.config).sound_path
  · cases hlo : lo (f m.config).sound_path <;>
      simp [AppModel.change_config, hch, hlo, playCurrent_true, Except.map, Except.bind] <;>
      split <;> exact ⟨_, _, rfl⟩
  · simp [AppModel.change_config, hch, Except.bind]
    split <;> exact ⟨_, _, rfl⟩

/-- Claim C4, counterexample: the source unwraps the result of
play_song_now, so a Step that lands on a zero countdown with a loaded
song whose playback fails makes the handler panic rather than log and
recover. -/
theorem c4_counterexample :
    AppModel.update (fun _ => none) (fun _ => false) AppMsg.Step
        (AppModel.mk true 0 (some "beep") State.Pomodoro 0 0 Config.default) =
      Except.error () := by
  rfl

/-- Claim C4 (amended): every command handler (Step, Toggle, Skip, Renew,
Restart, ChangeConfig, and the Ignore message) finishes without a panic
in the normal operating envelope, namely whenever rest_count is at least
one and playing an already-loaded song does not fail; the playback unwrap
is the one fatal branch outside that envelope. -/
theorem c4_amended (m : AppModel) (msg : AppMsg) (lo : PathBuf → Option Song)
    (h0 : 1 ≤ m.config.rest_count) :
    ∃ r, AppModel.update lo (fun _ => true) msg m = Except.ok r := by
  have h0' : m.config.rest_count ≠ 0 := by omega
  cases msg with
  | Ignore => exact ⟨_, rfl⟩
  | Step =>
    by_cases ht : m.timer = 0
    · obtain ⟨m1, h1⟩ := next_state_played m h0'
      have he : AppModel.update lo (fun _ => true) AppMsg.Step m =
          Except.ok (m1.schedule m.song.toList) := by
        simp [AppModel.update, AppModel.try_next_state, ht, h1, Except.map]
      exact ⟨_, he⟩
    · have he : AppModel.update lo (fun _ => true) AppMsg.Step m =
          Except.ok (m.schedule []) := by
        simp [AppModel.update, AppModel.try_next_state, ht, Except.map]
      exact ⟨_, he⟩
  | Toggle t => exact ⟨_, rfl⟩
  | Skip =>
    obtain ⟨m1, h1⟩ := next_state_played m h0'
    have he : AppModel.update lo (fun _ => true) AppMsg.Skip m =
        Except.ok (m1.schedule (if m.timer = 0 then m.song.toList else [])) := by
      simp [AppModel.update, h1, Except.map]
    exact ⟨_, he⟩
  | Renew => exact ⟨_, rfl⟩
  | Restart => exact ⟨_, rfl⟩
  | ChangeConfig f =>
    obtain ⟨mp, hp⟩ := change_config_ok lo f m
    have he : AppModel.update lo (fun _ => true) (AppMsg.ChangeConfig f) m =
        Except.ok (mp.1.schedule mp.2) := by
      simp [AppModel.update, hp, Except.map]
    exact ⟨_, he⟩

/-- Witness for c4_amended on a concrete Skip. -/
theorem c4_amended_witness :
    ∃ r, AppModel.update (fun _ => none) (fun _ => true) AppMsg.Skip
        (AppModel.mk false 900 none State.Pomodoro 0 0 Config.default) = Except.ok r :=
  c4_amended (AppModel.mk false 900 none State.Pomodoro 0 0 Config.default)
    AppMsg.Skip (fun _ => none) (by decide)

lemma change_config_eq_unchanged (lo : PathBuf → Option Song) (f : Config → Config)
    (m : AppModel) (h : (f m.config).sound_path = m.config.sound_path) :
    AppModel.change_config lo (fun _ => true) f m =
      if (f m.config).rest_count ≤ m.rest_counter then
        Except.ok (({ m with config := f m.config } : AppModel).restart, ([] : List Song))
      else
        Except.ok (({ m with config := f m.config } : AppModel).restart_state, ([] : List Song)) := by
  have h' : ¬(m.config.sound_path ≠ (f m.config).sound_path) := by
    simp [h]
  simp [AppModel.change_config, h', Except.bind]

lemma change_config_eq_some (lo : PathBuf → Option Song) (f : Config → Config)
    (m : AppModel) (s : Song) (h : (f m.config).sound_path ≠ m.config.sound_path)
    (hlo : lo (f m.config).sound_path = some s) :
    AppModel.change_config lo (fun _ => true) f m =
      if (f m.config).rest_count ≤ m.rest_counter then
        Except.ok (({ m with config := f m.config, song := some s } : AppModel).restart, [s])
      else
        Except.ok (({ m with config := f m.config, song := some s } : AppModel).restart_state,
          [s]) := by
  have h' : m.config.sound_path ≠ (f m.config).sound_path := fun e => h e.symm
  simp [AppModel.change_config, h', hlo, playCurrent, Except.bind, Except.map]

lemma change_config_eq_none (lo : PathBuf → Option Song) (f : Config → Config)
    (m : AppModel) (h : (f m.config).sound_path ≠ m.config.sound_path)
    (hlo : lo (f m.config).sound_path = none) :
    AppModel.change_config lo (fun _ => true) f m =
      if (f m.config).rest_count ≤ m.rest_counter then
        Except.ok (({ m with
          config := { f m.config with sound_path := m.config.sound_path } } : AppModel).restart,
          m.song.toList)
      else
        Except.ok (({ m with
          config := { f m.config with
            sound_path := m.config.sound_path } } : AppModel).restart_state,
          m.song.toList) := by
  have h' : m.config.sound_path ≠ (f m.config).sound_path := fun e => h e.symm
  cases hso : m.song <;>
    simp [AppModel.change_config, h', hlo, playCurrent, hso, Except.bind, Except.map]

/-- Claim C5: for every state and configuration mutation, ChangeConfig
performs Restart (phase Pomodoro, rest_counter 0, remaining set to the
new pomodoro duration) exactly when the mutated config satisfies
rest_count <= rest_counter, and otherwise performs Renew, keeping the
current phase and counters and setting remaining to the duration of the
current phase under the updated config. -/
theorem c5_change_config_restart_or_renew (m : AppModel) (f : Config → Config)
    (lo : PathBuf → Option Song) :
    ∃ m2 played, AppModel.change_config lo (fun _ => true) f m = Except.ok (m2, played)
      ∧ m2.pomodoro_count = m.pomodoro_count
      ∧ m2.config.pomodoro_time = (f m.config).pomodoro_time
      ∧ m2.config.break_time = (f m.config).break_time
      ∧ m2.config.rest_time = (f m.config).rest_time
      ∧ m2.config.rest_count = (f m.config).rest_count
      ∧ (if (f m.config).rest_count ≤ m.rest_counter then
          m2.state = State.Pomodoro ∧ m2.rest_counter = 0 ∧
            m2.timer = (f m.config).pomodoro_time
        else
          m2.state = m.state ∧ m2.rest_counter = m.rest_counter ∧
            m2.timer = State.duration m.state (f m.config)) := by
  by_cases hch : (f m.config).sound_path = m.config.sound_path
  · rw [change_config_eq_unchanged lo f m hch]
    by_cases hc : (f m.config).rest_count ≤ m.rest_counter
    · simp only [hc, if_true, ite_true]
      exact ⟨_, _, rfl, rfl, rfl, rfl, rfl, rfl, rfl, rfl, rfl⟩
    · simp only [hc, if_false, ite_false]
      refine ⟨_, _, rfl, rfl, rfl, rfl, rfl, rfl, rfl, rfl, ?_⟩
      cases m.state <;> rfl
  · cases hlo : lo (f m.config).sound_path with
    | some s =>
      rw [change_config_eq_some lo f m s hch hlo]
      by_cases hc : (f m.config).rest_count ≤ m.rest_counter
      · simp only [hc, if_true, ite_true]
        exact ⟨_, _, rfl, rfl, rfl, rfl, rfl, rfl, rfl, rfl, rfl⟩
      · simp only [hc, if_false, ite_false]
        refine ⟨_, _, rfl, rfl, rfl, rfl, rfl, rfl, rfl, rfl, ?_⟩
        cases m.state <;> rfl
    | none =>
      rw [change_config_eq_none lo f m hch hlo]
      by_cases hc : (f m.config).rest_count ≤ m.rest_counter
      · simp only [hc, if_true, ite_true]
        exact ⟨_, _, rfl, rfl, rfl, rfl, rfl, rfl, rfl, rfl, rfl⟩
      · simp only [hc, if_false, ite_false]
        refine ⟨_, _, rfl, rfl, rfl, rfl, rfl, rfl, rfl, rfl, ?_⟩
        cases m.state <;> rfl

/-- Claim C6: when the mutation changes sound_path and the new asset
fails validation, the sound_path field is rolled back to its previous
value while every other field edited by the mutation keeps its new
value, the loaded song is unchanged, and the timer state is handled
exactly as for a successful edit (restart or renew by the same rule). -/
theorem c6_sound_rollback (m : AppModel) (f : Config → Config) (lo : PathBuf → Option Song)
    (h : (f m.config).sound_path ≠ m.config.sound_path)
    (hlo : lo (f m.config).sound_path = none) :
    ∃ m2 played, AppModel.change_config lo (fun _ => true) f m = Except.ok (m2, played)
      ∧ m2.config = { f m.config with sound_path := m.config.sound_path }
      ∧ m2.song = m.song
      ∧ (if (f m.config).rest_count ≤ m.rest_counter then
          m2.state = State.Pomodoro ∧ m2.rest_counter = 0 ∧
            m2.timer = (f m.config).pomodoro_time
        else
          m2.state = m.state ∧ m2.rest_counter = m.rest_counter ∧
            m2.timer = State.duration m.state (f m.config)) := by
  rw [change_config_eq_none lo f m h hlo]
  by_cases hc : (f m.config).rest_count ≤ m.rest_counter
  · simp only [hc, if_true, ite_true]
    exact ⟨_, _, rfl, rfl, rfl, rfl, rfl, rfl⟩
  · simp only [hc, if_false, ite_false]
    refine ⟨_, _, rfl, rfl, rfl, rfl, rfl, ?_⟩
    cases m.state <;> rfl

/-- Witness for c6_sound_rollback: a mutation that points the sound at an
asset the loader rejects. -/
theorem c6_sound_rollback_witness :
    ∃ m2 played,
      AppModel.change_config (fun _ => none) (fun _ => true) fSound mSound =
        Except.ok (m2, played)
      ∧ m2.config = { fSound mSound.config with sound_path := mSound.config.sound_path }
      ∧ m2.song = mSound.song
      ∧ (if (fSound mSound.config).rest_count ≤ mSound.rest_counter then
          m2.state = State.Pomodoro ∧ m2.rest_counter = 0 ∧
            m2.timer = (fSound mSound.config).pomodoro_time
        else
          m2.state = mSound.state ∧ m2.rest_counter = mSound.rest_counter ∧
            m2.timer = State.duration mSound.state (fSound mSound.config)) :=
  c6_sound_rollback mSound fSound (fun _ => none) (by decide) rfl

/-- Claim C9: every ChangeConfig whose mutation changes sound_path
triggers immediate playback of the song that is loaded afterwards: the
newly loaded song when validation succeeds, otherwise the previously
loaded song (if any) after the rollback; this playback is independent of
any phase expiry. -/
theorem c9_changeconfig_plays (m : AppModel) (f : Config → Config)
    (lo : PathBuf → Option Song) (h : (f m.config).sound_path ≠ m.config.sound_path) :
    ∃ m2, AppModel.change_config lo (fun _ => true) f m =
      Except.ok (m2,
        match lo (f m.config).sound_path with
        | some s => [s]
        | none => m.song.toList) := by
  cases hlo : lo (f m.config).sound_path with
  | some s =>
    rw [change_config_eq_some lo f m s h hlo]
    by_cases hc : (f m.config).rest_count ≤ m.rest_counter <;>
      simp only [hc, if_true, ite_true, if_false, ite_false] <;> exact ⟨_, rfl⟩
  | none =>
    rw [change_config_eq_none lo f m h hlo]
    by_cases hc : (f m.config).rest_count ≤ m.rest_counter <;>
      simp only [hc, if_true, ite_true, if_false, ite_false] <;> exact ⟨_, rfl⟩

/-- Witness for c9_changeconfig_plays: the new asset fails to load, and
the previously loaded song is played after the rollback. -/
theorem c9_changeconfig_plays_witness :
    ∃ m2, AppModel.change_config (fun _ => none) (fun _ => true) fSound mSound =
      Except.ok (m2,
        match (fun (_ : PathBuf) => (none : Option Song)) ((fSound mSound.config).sound_path) with
        | some s => [s]
        | none => mSound.song.toList) :=
  c9_changeconfig_plays mSound fSound (fun _ => none) (by decide)

lemma clear_flags_false (s : SchedState) (hInv : PermInv s) :
    ∀ j, s.clear_step_permission.flags j = false := by
  intro j
  show (if s.current = some j then false else s.flags j) = false
  split
  · rfl
  · rename_i hne
    cases hf : s.flags j
    · rfl
    · exact absurd (hInv.1 j hf) hne

lemma permInv_after_schedule (flags : Nat → Bool) (n : Nat) (m : AppModel)
    (hall : ∀ j, flags j = false) :
    PermInv { model := m, flags := fun j => if j = n then true else flags j,
              nextId := n + 1, current := some n } := by
  refine ⟨?_, ?_, ?_⟩
  · intro j hj
    have hj' : (if j = n then true else flags j) = true := hj
    by_cases hje : j = n
    · show some n = some j
      rw [hje]
    · rw [if_neg hje, hall j] at hj'
      exact absurd hj' (by simp)
  · intro i hi
    have hi' : some n = some i := hi
    have hni : n = i := by simpa using hi'
    subst hni
    refine ⟨?_, Nat.lt_succ_self n⟩
    show (if n = n then true else flags n) = true
    rw [if_pos rfl]
  · intro j hj
    have hj' : n + 1 ≤ j := hj
    show (if j = n then true else flags j) = false
    have hje : ¬(j = n) := by omega
    rw [if_neg hje]
    exact hall j

lemma permInv_after_noSchedule (flags : Nat → Bool) (n : Nat) (m : AppModel)
    (hall : ∀ j, flags j = false) :
    PermInv { model := m, flags := flags, nextId := n, current := none } := by
  refine ⟨?_, ?_, ?_⟩
  · intro j hj
    have hj' : flags j = true := hj
    rw [hall j] at hj'
    exact absurd hj' (by simp)
  · intro i hi
    have hi' : (none : Option Nat) = some i := hi
    exact absurd hi' (by simp)
  · intro j _
    exact hall j

lemma procCmd_inv (lo : PathBuf → Option Song) (msg : AppMsg) (s s' : SchedState)
    (hInv : PermInv s) (h : procCmd lo msg s = some s') : PermInv s' := by
  have hall := clear_flags_false s hInv
  simp only [procCmd] at h
  cases hu : AppModel.update lo (fun _ => true) msg s.model with
  | error e =>
    rw [hu] at h
    exact absurd h (by simp)
  | ok r =>
    obtain ⟨m, p, sch⟩ := r
    rw [hu] at h
    cases sch with
    | some d =>
      simp only [Option.some.injEq] at h
      subst h
      exact permInv_after_schedule s.clear_step_permission.flags
        s.clear_step_permission.nextId m hall
    | none =>
      simp only [Option.some.injEq] at h
      subst h
      exact permInv_after_noSchedule s.clear_step_permission.flags
        s.clear_step_permission.nextId m hall

/-- Claim C7: every command handler invalidates the previous pending tick
before anything else, so in every reachable state the permission
invariant holds, at most one tick flag is true at any time, and a tick
whose permission was invalidated fires without submitting any Step (the
state is unchanged). -/
theorem c7_single_pending_tick (lo : PathBuf → Option Song) (s : SchedState)
    (h : SchedReach lo s) :
    PermInv s
    ∧ (∀ j k, s.flags j = true → s.flags k = true → j = k)
    ∧ (∀ id, s.flags id = false → procEvent lo (SchedEvent.fire id) s = some s) := by
  have hInv : PermInv s := by
    induction h with
    | init c =>
      exact ⟨fun j hj => by exact absurd hj (by simp [initSched]),
        fun i hi => absurd hi (by simp [initSched]),
        fun j _ => rfl⟩
    | step t t' e hr hp ih =>
      cases e with
      | command msg => exact procCmd_inv lo msg t t' ih hp
      | fire id =>
        by_cases hf : t.flags id
        · rw [procEvent, if_pos hf] at hp
          exact procCmd_inv lo AppMsg.Step t t' ih hp
        · rw [procEvent, if_neg hf] at hp
          simp only [Option.some.injEq] at hp
          rw [← hp]
          exact ih
  refine ⟨hInv, ?_, ?_⟩
  · intro j k hj hk
    have h1 := hInv.1 j hj
    have h2 := hInv.1 k hk
    rw [h1] at h2
    exact (Option.some.injEq _ _).mp h2
  · intro id hid
    have : ¬(s.flags id = true) := by simp [hid]
    simp [procEvent, this]

/-- Witness for c7_single_pending_tick at the freshly started engine. -/
theorem c7_single_pending_tick_witness :
    PermInv (initSched (fun _ => none) Config.default)
    ∧ (∀ j k, (initSched (fun _ => none) Config.default).flags j = true →
        (initSched (fun _ => none) Config.default).flags k = true → j = k)
    ∧ (∀ id, (initSched (fun _ => none) Config.default).flags id = false →
        procEvent (fun _ => none) (SchedEvent.fire id)
          (initSched (fun _ => none) Config.default) =
          some (initSched (fun _ => none) Config.default)) :=
  c7_single_pending_tick (fun _ => none) (initSched (fun _ => none) Config.default)
    (SchedReach.init Config.default)

lemma except_map_ok {α β ε : Type} (f : α → β) (e : Except ε α) (b : β)
    (h : e.map f = Except.ok b) : ∃ a, e = Except.ok a ∧ b = f a := by
  cases e with
  | error er => simp [Except.map] at h
  | ok a =>
    refine ⟨a, rfl, ?_⟩
    have : Except.ok (ε := ε) (f a) = Except.ok b := h
    simpa using this.symm

lemma except_bind_ok {α β ε : Type} (e : Except ε α) (f : α → Except ε β) (b : β)
    (h : e.bind f = Except.ok b) : ∃ a, e = Except.ok a ∧ f a = Except.ok b := by
  cases e with
  | error er => simp [Except.bind] at h
  | ok a =>
    refine ⟨a, rfl, ?_⟩
    simpa [Except.bind] using h

lemma timerInv_restart_state (m : AppModel) : TimerInv m.restart_state :=
  Nat.le_refl _

lemma timerInv_restart (m : AppModel) : TimerInv m.restart :=
  Nat.le_refl _

lemma next_state_timerInv (pk : Song → Bool) (m m1 : AppModel) (p1 : List Song)
    (h : AppModel.next_state pk m = Except.ok (m1, p1)) : TimerInv m1 := by
  unfold AppModel.next_state at h
  obtain ⟨a, _, hf⟩ := except_bind_ok _ _ _ h
  obtain ⟨pl, _, hb⟩ := except_map_ok _ _ _ hf
  have hm1 : m1 = a.restart_state := congrArg Prod.fst hb
  rw [hm1]
  exact timerInv_restart_state a

lemma change_config_timerInv (lo : PathBuf → Option Song) (pk : Song → Bool)
    (f : Config → Config) (m : AppModel) (mp : AppModel × List Song)
    (h : AppModel.change_config lo pk f m = Except.ok mp) : TimerInv mp.1 := by
  simp only [AppModel.change_config] at h
  obtain ⟨a, _, hf⟩ := except_bind_ok _ _ _ h
  split at hf
  · have : (a.1.restart, a.2) = mp := by simpa using hf
    rw [← this]
    exact timerInv_restart a.1
  · have : (a.1.restart_state, a.2) = mp := by simpa using hf
    rw [← this]
    exact timerInv_restart_state a.1

lemma timerInv_schedule (m : AppModel) (p : List Song) (h : TimerInv m) :
    TimerInv (m.schedule p).1
    ∧ ∀ d, (m.schedule p).2.2 = some d → d = min SLEEP_STEP ((m.schedule p).1.timer + d) := by
  unfold AppModel.schedule
  split
  · constructor
    · show m.timer - min SLEEP_STEP m.timer ≤ m.state.duration m.config
      have hmin : min SLEEP_STEP m.timer ≤ m.timer := Nat.min_le_right _ _
      have hd : m.timer ≤ m.state.duration m.config := h
      omega
    · intro d hd
      have hd' : some (min SLEEP_STEP m.timer) = some d := hd
      have hde : min SLEEP_STEP m.timer = d := by simpa using hd'
      show d = min SLEEP_STEP (m.timer - min SLEEP_STEP m.timer + d)
      have hmin : min SLEEP_STEP m.timer ≤ m.timer := Nat.min_le_right _ _
      rw [← hde, Nat.sub_add_cancel hmin]
  · exact ⟨h, fun d hd => absurd hd (by simp)⟩

lemma update_timerInv (lo : PathBuf → Option Song) (msg : AppMsg) (m m' : AppModel)
    (p : List Song) (sched : Option Nat) (hInv : TimerInv m)
    (h : AppModel.update lo (fun _ => true) msg m = Except.ok (m', p, sched)) :
    TimerInv m' ∧ ∀ d, sched = some d → d = min SLEEP_STEP (m'.timer + d) := by
  cases msg with
  | Ignore =>
    have h' : Except.ok (ε := Unit) (m, ([] : List Song), (none : Option Nat)) =
        Except.ok (m', p, sched) := h
    have hb : (m, ([] : List Song), (none : Option Nat)) = (m', p, sched) := by simpa using h'
    have hm : m = m' := congrArg (fun r => r.1) hb
    have hs : (none : Option Nat) = sched := congrArg (fun r => r.2.2) hb
    rw [← hm, ← hs]
    exact ⟨hInv, fun d hd => absurd hd (by simp)⟩
  | Step =>
    simp only [AppModel.update] at h
    obtain ⟨mp, hmp, hb⟩ := except_map_ok _ _ _ h
    have hpre : TimerInv mp.1 := by
      unfold AppModel.try_next_state at hmp
      split at hmp
      · exact next_state_timerInv _ m mp.1 mp.2 (by rwa [← Prod.mk.eta (p := mp)] at hmp)
      · have : (m, ([] : List Song)) = mp := by simpa using hmp
        rw [← this]
        exact hInv
    have h1 : m' = (mp.1.schedule mp.2).1 := congrArg (fun r => r.1) hb
    have h3 : sched = (mp.1.schedule mp.2).2.2 := congrArg (fun r => r.2.2) hb
    rw [h1, h3]
    exact timerInv_schedule mp.1 mp.2 hpre
  | Toggle t =>
    have h' : Except.ok (ε := Unit) ((m.toggle t).schedule []) =
        Except.ok (m', p, sched) := h
    have hb : (m.toggle t).schedule [] = (m', p, sched) := by simpa using h'
    have h1 : m' = ((m.toggle t).schedule []).1 := (congrArg (fun r => r.1) hb).symm
    have h3 : sched = ((m.toggle t).schedule []).2.2 := (congrArg (fun r => r.2.2) hb).symm
    rw [h1, h3]
    exact timerInv_schedule (m.toggle t) [] hInv
  | Skip =>
    simp only [AppModel.update] at h
    obtain ⟨mp, hmp, hb⟩ := except_map_ok _ _ _ h
    have hpre : TimerInv mp.1 :=
      next_state_timerInv _ m mp.1 mp.2 (by rwa [← Prod.mk.eta (p := mp)] at hmp)
    have h1 : m' = (mp.1.schedule mp.2).1 := congrArg (fun r => r.1) hb
    have h3 : sched = (mp.1.schedule mp.2).2.2 := congrArg (fun r => r.2.2) hb
    rw [h1, h3]
    exact timerInv_schedule mp.1 mp.2 hpre
  | Renew =>
    have h' : Except.ok (ε := Unit) (m.restart_state.schedule []) =
        Except.ok (m', p, sched) := h
    have hb : m.restart_state.schedule [] = (m', p, sched) := by simpa using h'
    have h1 : m' = (m.restart_state.schedule []).1 := (congrArg (fun r => r.1) hb).symm
    have h3 : sched = (m.restart_state.schedule []).2.2 := (congrArg (fun r => r.2.2) hb).symm
    rw [h1, h3]
    exact timerInv_schedule m.restart_state [] (timerInv_restart_state m)
  | Restart =>
    have h' : Except.ok (ε := Unit) (m.restart.schedule []) =
        Except.ok (m', p, sched) := h
    have hb : m.restart.schedule [] = (m', p, sched) := by simpa using h'
    have h1 : m' = (m.restart.schedule []).1 := (congrArg (fun r => r.1) hb).symm
    have h3 : sched = (m.restart.schedule []).2.2 := (congrArg (fun r => r.2.2) hb).symm
    rw [h1, h3]
    exact timerInv_schedule m.restart [] (timerInv_restart m)
  | ChangeConfig f =>
    simp only [AppModel.update] at h
    obtain ⟨mp, hmp, hb⟩ := except_map_ok _ _ _ h
    have hpre : TimerInv mp.1 := change_config_timerInv lo _ f m mp hmp
    have h1 : m' = (mp.1.schedule mp.2).1 := congrArg (fun r => r.1) hb
    have h3 : sched = (mp.1.schedule mp.2).2.2 := congrArg (fun r => r.2.2) hb
    rw [h1, h3]
    exact timerInv_schedule mp.1 mp.2 hpre

lemma procCmd_model (lo : PathBuf → Option Song) (msg : AppMsg) (s s' : SchedState)
    (h : procCmd lo msg s = some s') :
    ∃ p sch, AppModel.update lo (fun _ => true) msg s.model =
      Except.ok (s'.model, p, sch) := by
  simp only [procCmd] at h
  cases hu : AppModel.update lo (fun _ => true) msg s.model with
  | error e =>
    rw [hu] at h
    exact absurd h (by simp)
  | ok r =>
    obtain ⟨m, p, sch⟩ := r
    rw [hu] at h
    cases sch with
    | some d =>
      simp only [Option.some.injEq] at h
      subst h
      exact ⟨p, some d, rfl⟩
    | none =>
      simp only [Option.some.injEq] at h
      subst h
      exact ⟨p, none, rfl⟩

/-- Claim C8: remaining starts within the bound, every processed command
keeps 0 <= remaining <= phase_duration(phase, config), when a tick is
scheduled its delay d satisfies d = min(SLEEP_STEP, remaining before the
decrement) with remaining decremented by exactly d beforehand, and the
bound holds for the engine model in every reachable state of the event
system. -/
theorem c8_timer_invariant :
    (∀ (lo : PathBuf → Option Song) (c : Config), TimerInv (AppModel.new lo c))
    ∧ (∀ (lo : PathBuf → Option Song) (m : AppModel) (msg : AppMsg) (m' : AppModel)
        (p : List Song) (sched : Option Nat),
        TimerInv m →
        AppModel.update lo (fun _ => true) msg m = Except.ok (m', p, sched) →
        TimerInv m' ∧ ∀ d, sched = some d → d = min SLEEP_STEP (m'.timer + d))
    ∧ (∀ (lo : PathBuf → Option Song) (s : SchedState), SchedReach lo s →
        TimerInv s.model) := by
  refine ⟨fun lo c => Nat.le_refl _,
    fun lo m msg m' p sched h1 h2 => update_timerInv lo msg m m' p sched h1 h2, ?_⟩
  intro lo s h
  induction h with
  | init c => exact Nat.le_refl _
  | step t t' e hr hp ih =>
    cases e with
    | command msg =>
      obtain ⟨p, sch, hu⟩ := procCmd_model lo msg t t' hp
      exact (update_timerInv lo msg t.model t'.model p sch ih hu).1
    | fire id =>
      by_cases hf : t.flags id
      · rw [procEvent, if_pos hf] at hp
        obtain ⟨p, sch, hu⟩ := procCmd_model lo AppMsg.Step t t' hp
        exact (update_timerInv lo AppMsg.Step t.model t'.model p sch ih hu).1
      · rw [procEvent, if_neg hf] at hp
        have he : t = t' := by simpa using hp
        rw [← he]
        exact ih

/-- Witness for c8_timer_invariant: the startup state, and one concrete
Toggle that starts the countdown and schedules a 250 ms tick. -/
theorem c8_timer_invariant_witness :
    TimerInv (AppModel.new (fun _ => none) Config.default)
    ∧ (TimerInv (AppModel.mk true 1499750 none State.Pomodoro 0 0 Config.default)
      ∧ ∀ d, (some 250 : Option Nat) = some d →
          d = min SLEEP_STEP
            ((AppModel.mk true 1499750 none State.Pomodoro 0 0 Config.default).timer + d)) :=
  ⟨c8_timer_invariant.1 (fun _ => none) Config.default,
    c8_timer_invariant.2.1 (fun _ => none) (AppModel.new (fun _ => none) Config.default)
      (AppMsg.Toggle none) (AppModel.mk true 1499750 none State.Pomodoro 0 0 Config.default)
      [] (some 250) (c8_timer_invariant.1 (fun _ => none) Config.default) (by decide)⟩
